import Mathlib

/-!
Verification of the web-scrapper repository: a shallow embedding of the
retry loop of `WebScraper.scrape` (src/scraper.py), the configuration
merge and validation of `ConfigManager` (src/config.py), the text/URL
normalization of `DataValidator` (src/utils.py), the progress statistics
of `ProgressTracker` (src/utils.py), and the tabular/batch export logic
of `DataExporter` / `BatchExporter` (src/exporters.py).
-/

/-- A model of the Python values the framework passes around: `None`,
booleans, integers, strings, lists, and insertion-ordered dictionaries
with string keys (association lists, as Python dicts preserve insertion
order). -/
inductive PyVal where
  | null : PyVal
  | bool (b : Bool) : PyVal
  | int (n : Int) : PyVal
  | str (s : String) : PyVal
  | list (xs : List PyVal) : PyVal
  | dict (entries : List (String × PyVal)) : PyVal

/-- Lookup of a key in a Python dict modelled as an association list:
the first binding of the key, if any. -/
def lookupD : List (String × PyVal) → String → Option PyVal
  | [], _ => none
  | (k, v) :: rest, key => if k = key then some v else lookupD rest key

/-- `base[key] = val` on a Python dict: an existing key keeps its
insertion position and gets the new value; a fresh key is appended. -/
def dictSet : List (String × PyVal) → String → PyVal → List (String × PyVal)
  | [], key, val => [(key, val)]
  | (k, v) :: rest, key, val =>
    if k = key then (k, val) :: rest else (k, v) :: dictSet rest key val

/-- `ConfigManager._deep_merge` (src/config.py): for each key/value of
`update` in order, if the value is a dict and the key is present in
`base` with a dict value, recurse; otherwise `base[key] = value`. -/
def deepMerge (base : List (String × PyVal)) :
    List (String × PyVal) → List (String × PyVal)
  | [] => base
  | (k, v) :: rest =>
    match v, lookupD base k with
    | PyVal.dict vd, some (PyVal.dict bd) =>
      deepMerge (dictSet base k (PyVal.dict (deepMerge bd vd))) rest
    | v, _ => deepMerge (dictSet base k v) rest
termination_by upd => sizeOf upd
decreasing_by
  all_goals simp
  all_goals omega

/-- The value that `_deep_merge` stores at key `k` for an update value `v`:
the recursive merge when both sides hold dicts at `k`, the update value
itself otherwise. -/
def mergedValue (base : List (String × PyVal)) (k : String) (v : PyVal) :
    PyVal :=
  match v, lookupD base k with
  | PyVal.dict vd, some (PyVal.dict bd) => PyVal.dict (deepMerge bd vd)
  | v, _ => v

/-- The keys of a dict, in insertion order. -/
def keysOf (d : List (String × PyVal)) : List String := d.map Prod.fst

theorem lookupD_dictSet (base : List (String × PyVal)) (k : String) (v : PyVal)
    (key : String) :
    lookupD (dictSet base k v) key =
      if k = key then some v else lookupD base key := by
  induction base with
  | nil => simp [dictSet, lookupD]
  | cons hd tl ih =>
    obtain ⟨k0, v0⟩ := hd
    by_cases h0 : k0 = k
    · subst h0
      simp only [dictSet, if_pos rfl, lookupD]
      by_cases hkey : k0 = key <;> simp [hkey]
    · simp only [dictSet, if_neg h0, lookupD]
      by_cases hkey : k0 = key
      · subst hkey
        have hk : ¬ k = k0 := fun hh => h0 hh.symm
        simp [if_neg hk]
      · simp [if_neg hkey, ih]

theorem lookupD_eq_none_of_not_mem (d : List (String × PyVal)) (key : String)
    (h : key ∉ keysOf d) : lookupD d key = none := by
  induction d with
  | nil => rfl
  | cons hd tl ih =>
    obtain ⟨k0, v0⟩ := hd
    simp only [keysOf, List.map_cons, List.mem_cons, not_or] at h
    have hne : ¬ k0 = key := fun hh => h.1 hh.symm
    rw [lookupD, if_neg hne]
    exact ih (by simpa [keysOf] using h.2)

theorem mergedValue_ext (b1 b2 : List (String × PyVal)) (k : String)
    (v : PyVal) (h : lookupD b1 k = lookupD b2 k) :
    mergedValue b1 k v = mergedValue b2 k v := by
  unfold mergedValue
  rw [h]

/-- One unfolding step of `deepMerge`, phrased through `mergedValue`. -/
theorem deepMerge_cons (base : List (String × PyVal)) (k : String) (v : PyVal)
    (rest : List (String × PyVal)) :
    deepMerge base ((k, v) :: rest) =
      deepMerge (dictSet base k (mergedValue base k v)) rest := by
  cases v with
  | dict vd =>
    cases hb : lookupD base k with
    | none => simp [deepMerge, mergedValue, hb]
    | some w => cases w <;> simp [deepMerge, mergedValue, hb]
  | null => simp [deepMerge, mergedValue]
  | bool b => simp [deepMerge, mergedValue]
  | int n => simp [deepMerge, mergedValue]
  | str s => simp [deepMerge, mergedValue]
  | list xs => simp [deepMerge, mergedValue]

/-- Per-key characterization of `deepMerge`: for an update whose keys are
distinct (always true of a Python dict), a key absent from the update keeps
its base binding, and a key present in the update gets `mergedValue`. -/
theorem lookupD_deepMerge (base upd : List (String × PyVal)) (key : String)
    (h : (keysOf upd).Nodup) :
    lookupD (deepMerge base upd) key =
      match lookupD upd key with
      | none => lookupD base key
      | some v => some (mergedValue base key v) := by
  induction upd generalizing base with
  | nil => simp [deepMerge, lookupD]
  | cons hd rest ih =>
    obtain ⟨k, v⟩ := hd
    simp only [keysOf, List.map_cons, List.nodup_cons] at h
    obtain ⟨hk, hrest⟩ := h
    have hrestNone : lookupD rest k = none :=
      lookupD_eq_none_of_not_mem rest k (by simpa [keysOf] using hk)
    rw [deepMerge_cons, ih _ (by simpa [keysOf] using hrest)]
    by_cases hkey : k = key
    · subst hkey
      simp [hrestNone, lookupD_dictSet, lookupD]
    · have hstep : lookupD (dictSet base k (mergedValue base k v)) key =
        lookupD base key := by rw [lookupD_dictSet, if_neg hkey]
      have hcons : lookupD ((k, v) :: rest) key = lookupD rest key := by
        rw [lookupD, if_neg hkey]
      rw [hcons]
      cases hr : lookupD rest key with
      | none => simp [hstep]
      | some w =>
        simp only []
        rw [mergedValue_ext _ base _ _ hstep]

/-- C3: deep merge recurses on keys present in both sides as mappings and
otherwise replaces the base value wholesale with the override value; in
particular merging `{a:{x:1,y:2}}` with `{a:{y:3,z:4}}` yields
`{a:{x:1,y:3,z:4}}`. -/
theorem deep_merge_spec :
    (∀ (base upd : List (String × PyVal)) (key : String),
      (keysOf upd).Nodup →
      lookupD (deepMerge base upd) key =
        match lookupD upd key with
        | none => lookupD base key
        | some v => some (mergedValue base key v)) ∧
    (∀ (base : List (String × PyVal)) (k : String)
      (vd bd : List (String × PyVal)),
      lookupD base k = some (PyVal.dict bd) →
      mergedValue base k (PyVal.dict vd) = PyVal.dict (deepMerge bd vd)) ∧
    (∀ (base : List (String × PyVal)) (k : String) (v : PyVal),
      (∀ vd, v ≠ PyVal.dict vd) → mergedValue base k v = v) ∧
    (∀ (base : List (String × PyVal)) (k : String) (v : PyVal),
      (∀ bd, lookupD base k ≠ some (PyVal.dict bd)) →
      mergedValue base k v = v) ∧
    deepMerge [("a", PyVal.dict [("x", PyVal.int 1), ("y", PyVal.int 2)])]
              [("a", PyVal.dict [("y", PyVal.int 3), ("z", PyVal.int 4)])] =
      [("a", PyVal.dict
        [("x", PyVal.int 1), ("y", PyVal.int 3), ("z", PyVal.int 4)])] := by
  refine ⟨lookupD_deepMerge, ?_, ?_, ?_, ?_⟩
  · intro base k vd bd hb
    unfold mergedValue
    rw [hb]
  · intro base k v hv
    unfold mergedValue
    cases v with
    | dict vd => exact absurd rfl (hv vd)
    | null => rfl
    | bool b => rfl
    | int n => rfl
    | str s => rfl
    | list xs => rfl
  · intro base k v hb
    unfold mergedValue
    cases v with
    | dict vd =>
      cases hlk : lookupD base k with
      | none => rfl
      | some w =>
        cases w with
        | dict bd => exact absurd hlk (hb bd)
        | null => rfl
        | bool b => rfl
        | int n => rfl
        | str s => rfl
        | list xs => rfl
    | null => rfl
    | bool b => rfl
    | int n => rfl
    | str s => rfl
    | list xs => rfl
  · simp [deepMerge, dictSet, lookupD]

/-- Witness for C3: the general merge characterization instantiated at the
spec's own example, with the nodup-keys hypothesis discharged by computation. -/
theorem deep_merge_spec_witness :
    lookupD
      (deepMerge [("a", PyVal.dict [("x", PyVal.int 1), ("y", PyVal.int 2)])]
                 [("a", PyVal.dict [("y", PyVal.int 3), ("z", PyVal.int 4)])])
      "a" =
    some (mergedValue
      [("a", PyVal.dict [("x", PyVal.int 1), ("y", PyVal.int 2)])] "a"
      (PyVal.dict [("y", PyVal.int 3), ("z", PyVal.int 4)])) := by
  have h := deep_merge_spec.1
    [("a", PyVal.dict [("x", PyVal.int 1), ("y", PyVal.int 2)])]
    [("a", PyVal.dict [("y", PyVal.int 3), ("z", PyVal.int 4)])]
    "a" (by simp [keysOf])
  simpa [lookupD] using h

/-! ### The retry loop of `WebScraper.scrape` (src/scraper.py) -/

/-- The outcome of one call to `WebScraper._make_request` followed by
response handling: either a response with an HTTP status code and the
record `_extract_data` would produce from it, or a raised transport
exception carrying a message. -/
inductive FetchResult where
  | response (status : Nat) (extracted : PyVal)
  | exn (msg : String)

/-- How a call to `scrape` ends: a returned record (`ret`) or a re-raised
exception (`raise`). The fall-through `return {}` of the source is
`ret (PyVal.dict [])`. -/
inductive ScrapeOutcome where
  | ret (v : PyVal)
  | raise (msg : String)

/-- The observable trace of one `scrape` call: its outcome, the total time
spent in `time.sleep` (in the units of `retry_delay`), and the number of
request attempts performed. -/
structure ScrapeTrace where
  outcome : ScrapeOutcome
  totalSleep : Nat
  attempts : Nat

/-- The body of the `for attempt in range(self.max_retries)` loop of
`WebScraper.scrape` (src/scraper.py): on a 200 response the extracted
record is returned; on a non-200 response the status is logged and the
loop advances to the next attempt; on an exception the loop sleeps
`retry_delay` and advances when further attempts remain
(`attempt < self.max_retries - 1`), otherwise re-raises; when the loop
ends without a 200 the function returns `{}`. `remaining` counts the loop
iterations still to run (initially `max_retries`), so `remaining = r + 1`
means the current attempt is the last one exactly when `r = 0`. -/
def scrapeGo (fetch : Nat → FetchResult) (retryDelay : Nat) :
    Nat → Nat → ScrapeTrace
  | _, 0 => ⟨ScrapeOutcome.ret (PyVal.dict []), 0, 0⟩
  | attempt, r + 1 =>
    match fetch attempt with
    | FetchResult.response status extracted =>
      if status = 200 then ⟨ScrapeOutcome.ret extracted, 0, 1⟩
      else
        let t := scrapeGo fetch retryDelay (attempt + 1) r
        ⟨t.outcome, t.totalSleep, t.attempts + 1⟩
    | FetchResult.exn msg =>
      if r = 0 then ⟨ScrapeOutcome.raise msg, 0, 1⟩
      else
        let t := scrapeGo fetch retryDelay (attempt + 1) r
        ⟨t.outcome, t.totalSleep + retryDelay, t.attempts + 1⟩

/-- `WebScraper.scrape` (src/scraper.py), abstracted over the network:
`fetch i` is what attempt number `i` (0-based) observes. -/
def scrape (fetch : Nat → FetchResult) (maxRetries retryDelay : Nat) :
    ScrapeTrace :=
  scrapeGo fetch retryDelay 0 maxRetries

theorem scrapeGo_all_non200 (fetch : Nat → FetchResult) (retryDelay : Nat) :
    ∀ (remaining attempt : Nat),
    (∀ i, attempt ≤ i → i < attempt + remaining →
      ∃ s v, fetch i = FetchResult.response s v ∧ s ≠ 200) →
    scrapeGo fetch retryDelay attempt remaining =
      ⟨ScrapeOutcome.ret (PyVal.dict []), 0, remaining⟩ := by
  intro remaining
  induction remaining with
  | zero => intro attempt _; rfl
  | succ r ih =>
    intro attempt h
    obtain ⟨s, v, hfetch, hs⟩ := h attempt le_rfl (by omega)
    rw [scrapeGo, hfetch]
    simp only [if_neg hs]
    rw [ih (attempt + 1) (fun i h1 h2 => h i (by omega) (by omega))]

/-- C1 (amended): when every attempt yields a non-200 response and no
exception is raised, `scrape` advances to the next attempt **without
sleeping** (the `time.sleep` sits in the `except` branch only), performs
all `max_retries` attempts, and returns an empty record. -/
theorem scrape_all_non200 (fetch : Nat → FetchResult)
    (maxRetries retryDelay : Nat)
    (h : ∀ i, i < maxRetries →
      ∃ s v, fetch i = FetchResult.response s v ∧ s ≠ 200) :
    scrape fetch maxRetries retryDelay =
      ⟨ScrapeOutcome.ret (PyVal.dict []), 0, maxRetries⟩ :=
  scrapeGo_all_non200 fetch retryDelay maxRetries 0
    (fun i h1 h2 => h i (by omega))

/-- Witness for C1 (amended): three attempts against a server that always
answers 404 end with the empty record, zero sleep, and three attempts. -/
theorem scrape_all_non200_witness :
    scrape (fun _ => FetchResult.response 404 PyVal.null) 3 5 =
      ⟨ScrapeOutcome.ret (PyVal.dict []), 0, 3⟩ :=
  scrape_all_non200 (fun _ => FetchResult.response 404 PyVal.null) 3 5
    (fun i _ => ⟨404, PyVal.null, rfl, by omega⟩)

/-- Counterexample to C1 as stated: with `max_retries = 3`,
`retry_delay = 5` and every attempt answering 404, the claim requires a
sleep of `retry_delay` after each non-final attempt (total `2 * 5`), but
the code never sleeps on a non-200 status. -/
theorem scrape_non200_sleep_counterexample :
    (scrape (fun _ => FetchResult.response 404 PyVal.null) 3 5).totalSleep
      = 0 ∧
    (scrape (fun _ => FetchResult.response 404 PyVal.null) 3 5).totalSleep
      ≠ 2 * 5 := by
  constructor
  · rfl
  · intro h
    exact absurd h (by decide)

/-- C2: with `max_retries = 3` and a transport exception on every attempt,
`scrape` performs exactly 3 attempts, sleeps `retry_delay` after each of
the two non-final attempts (total `2 * retry_delay`), and re-raises the
final attempt's exception. -/
theorem scrape_all_fail_three (fetch : Nat → FetchResult)
    (retryDelay : Nat) (e0 e1 e2 : String)
    (h0 : fetch 0 = FetchResult.exn e0) (h1 : fetch 1 = FetchResult.exn e1)
    (h2 : fetch 2 = FetchResult.exn e2) :
    scrape fetch 3 retryDelay =
      ⟨ScrapeOutcome.raise e2, 2 * retryDelay, 3⟩ := by
  simp only [scrape, scrapeGo, h0, h1, h2]
  simp
  omega

/-- Witness for C2 at a concrete always-failing fetch. -/
theorem scrape_all_fail_three_witness :
    scrape (fun i => FetchResult.exn (toString i)) 3 7 =
      ⟨ScrapeOutcome.raise "2", 2 * 7, 3⟩ :=
  scrape_all_fail_three (fun i => FetchResult.exn (toString i)) 7
    "0" "1" "2" rfl rfl rfl

/-! ### `ConfigManager._validate_config` (src/config.py) -/

/-- The three configuration leaves `_validate_config` inspects:
`scraping.timeout`, `scraping.max_retries`, `output.format`. -/
structure ScraperConfig where
  timeout : Int
  max_retries : Int
  format : String
deriving DecidableEq

/-- The `valid_formats` list of `_validate_config` (src/config.py). -/
def valid_formats : List String := ["json", "csv", "xlsx", "docx", "txt"]

/-- `ConfigManager._validate_config` (src/config.py): resets
`timeout <= 0` to 30, `max_retries < 0` to 3, and an output format
outside `valid_formats` to `"json"` (directory creation is I/O and not
modelled). -/
def validate_config (c : ScraperConfig) : ScraperConfig :=
  { timeout := if c.timeout ≤ 0 then 30 else c.timeout,
    max_retries := if c.max_retries < 0 then 3 else c.max_retries,
    format := if c.format ∈ valid_formats then c.format else "json" }

/-- C8: post-merge validation resets `timeout ≤ 0` to 30, `max_retries < 0`
to 3, forces a format outside {json,csv,xlsx,docx,txt} to json, and leaves
in-range values unchanged; in particular `(-5, -1, "pdf")` resolves to
`(30, 3, "json")`. -/
theorem validate_config_spec :
    (∀ c : ScraperConfig, c.timeout ≤ 0 → (validate_config c).timeout = 30) ∧
    (∀ c : ScraperConfig, 0 < c.timeout →
      (validate_config c).timeout = c.timeout) ∧
    (∀ c : ScraperConfig, c.max_retries < 0 →
      (validate_config c).max_retries = 3) ∧
    (∀ c : ScraperConfig, 0 ≤ c.max_retries →
      (validate_config c).max_retries = c.max_retries) ∧
    (∀ c : ScraperConfig, c.format ∉ valid_formats →
      (validate_config c).format = "json") ∧
    (∀ c : ScraperConfig, c.format ∈ valid_formats →
      (validate_config c).format = c.format) ∧
    validate_config ⟨-5, -1, "pdf"⟩ = ⟨30, 3, "json"⟩ := by
  refine ⟨?_, ?_, ?_, ?_, ?_, ?_, ?_⟩
  · intro c h; simp [validate_config, if_pos h]
  · intro c h; simp [validate_config]; omega
  · intro c h; simp [validate_config, if_pos h]
  · intro c h; simp [validate_config]; omega
  · intro c h; simp [validate_config, if_neg h]
  · intro c h; simp [validate_config, if_pos h]
  · decide

/-- Witness for C8 at the spec's example values. -/
theorem validate_config_spec_witness :
    (validate_config ⟨-5, -1, "pdf"⟩).timeout = 30 ∧
    (validate_config ⟨-5, -1, "pdf"⟩).max_retries = 3 ∧
    (validate_config ⟨-5, -1, "pdf"⟩).format = "json" :=
  ⟨validate_config_spec.1 ⟨-5, -1, "pdf"⟩ (by decide),
   validate_config_spec.2.2.1 ⟨-5, -1, "pdf"⟩ (by decide),
   validate_config_spec.2.2.2.2.1 ⟨-5, -1, "pdf"⟩ (by decide)⟩

/-- C10: with `max_retries = 0`, `scrape` runs `range(0)`, performs zero
attempts, and returns the empty record without raising; and the validator
accepts `max_retries = 0` (only strictly negative values are reset). -/
theorem scrape_zero_retries :
    (∀ (fetch : Nat → FetchResult) (retryDelay : Nat),
      scrape fetch 0 retryDelay =
        ⟨ScrapeOutcome.ret (PyVal.dict []), 0, 0⟩) ∧
    (∀ (t : Int) (f : String),
      (validate_config ⟨t, 0, f⟩).max_retries = 0) := by
  constructor
  · intro fetch retryDelay; rfl
  · intro t f; simp [validate_config]

/-! ### `ProgressTracker` (src/utils.py) -/

/-- The counters of `ProgressTracker` (timing is real time and not
modelled; `get_progress` fields that depend only on the counters are). -/
structure ProgressState where
  total_items : Nat
  completed_items : Nat
  failed_items : Nat
deriving DecidableEq

/-- `ProgressTracker.__init__(total_items)`. -/
def ProgressState.init (total : Nat) : ProgressState := ⟨total, 0, 0⟩

/-- `ProgressTracker.update`: a success bumps `completed_items`, a failure
bumps `failed_items`. -/
def ProgressState.update (t : ProgressState) (success : Bool) :
    ProgressState :=
  if success then { t with completed_items := t.completed_items + 1 }
  else { t with failed_items := t.failed_items + 1 }

/-- The `success_rate` field of `ProgressTracker.get_progress`
(src/utils.py): `completed / (completed + failed) * 100` when anything was
processed, otherwise 0. Python computes this in floating point; the exact
rational value is modelled. -/
def success_rate (t : ProgressState) : ℚ :=
  if t.completed_items + t.failed_items > 0 then
    (t.completed_items : ℚ) /
      ((t.completed_items : ℚ) + (t.failed_items : ℚ)) * 100
  else 0

/-- C9: the reported success rate is `completed / (completed + failed)` as
a percentage, 0 when nothing has been processed; after 3 successful and 2
failed updates it is 60. -/
theorem success_rate_spec :
    (∀ t : ProgressState, t.completed_items + t.failed_items = 0 →
      success_rate t = 0) ∧
    (∀ t : ProgressState, 0 < t.completed_items + t.failed_items →
      success_rate t =
        (t.completed_items : ℚ) /
          ((t.completed_items : ℚ) + (t.failed_items : ℚ)) * 100) ∧
    success_rate
      ([true, true, true, false, false].foldl ProgressState.update
        (ProgressState.init 5)) = 60 := by
  refine ⟨?_, ?_, ?_⟩
  · intro t h; simp [success_rate, h]
  · intro t h; simp [success_rate, h]
  · norm_num [success_rate, ProgressState.init, ProgressState.update]

/-- Witness for C9: the formula applied to the 3-success / 2-failure state
gives 60. -/
theorem success_rate_spec_witness :
    success_rate ⟨5, 3, 2⟩ = (3 : ℚ) / ((3 : ℚ) + (2 : ℚ)) * 100 :=
  success_rate_spec.2.1 ⟨5, 3, 2⟩ (by decide)

/-! ### Tabular export: `DataExporter.export_csv` and
`DataExporter._prepare_data_for_tabular` (src/exporters.py) -/

/-- One hexadecimal digit, lower case. -/
def hexDigit (n : Nat) : Char :=
  if n < 10 then Char.ofNat (48 + n) else Char.ofNat (87 + n)

/-- The escaping `json.dumps` applies to one character of a string (with
`ensure_ascii=False`): quote, backslash and control characters are
escaped, everything else passes through. -/
def jsonEscapeChar (c : Char) : String :=
  if c = '"' then "\\\""
  else if c = '\\' then "\\\\"
  else if c = '\n' then "\\n"
  else if c = '\t' then "\\t"
  else if c = '\r' then "\\r"
  else if c.toNat = 8 then "\\b"
  else if c.toNat = 12 then "\\f"
  else if c.toNat < 32 then
    "\\u00" ++ String.mk [hexDigit (c.toNat / 16), hexDigit (c.toNat % 16)]
  else String.singleton c

def jsonEscape (s : String) : String :=
  String.join (s.data.map jsonEscapeChar)

mutual
/-- `json.dumps(v, ensure_ascii=False)` with the default separators
`", "` and `": "`, as used by `export_csv` / `export_excel` to inline a
nested list or dict value into a single cell (src/exporters.py). -/
def jsonDumps : PyVal → String
  | PyVal.null => "null"
  | PyVal.bool b => if b then "true" else "false"
  | PyVal.int n => toString n
  | PyVal.str s => "\"" ++ jsonEscape s ++ "\""
  | PyVal.list xs => "[" ++ jsonDumpsList xs ++ "]"
  | PyVal.dict d => "\x7b" ++ jsonDumpsEntries d ++ "\x7d"
termination_by v => sizeOf v

/-- The comma-separated rendering of a JSON array's elements. -/
def jsonDumpsList : List PyVal → String
  | [] => ""
  | [x] => jsonDumps x
  | x :: y :: rest => jsonDumps x ++ ", " ++ jsonDumpsList (y :: rest)
termination_by xs => sizeOf xs

/-- The comma-separated rendering of a JSON object's entries. -/
def jsonDumpsEntries : List (String × PyVal) → String
  | [] => ""
  | [(k, v)] => "\"" ++ jsonEscape k ++ "\": " ++ jsonDumps v
  | (k, v) :: e :: rest =>
    "\"" ++ jsonEscape k ++ "\": " ++ jsonDumps v ++ ", " ++
      jsonDumpsEntries (e :: rest)
termination_by es => sizeOf es
end

def pyIsDict : PyVal → Bool
  | PyVal.dict _ => true
  | _ => false

def pyIsList : PyVal → Bool
  | PyVal.list _ => true
  | _ => false

/-- Python `str()` on the scalar values that reach the fall-through branch
of `_prepare_data_for_tabular` and the cell writer of `export_csv`; list
and dict values never reach these call sites (both dispatch them to
`json.dumps` first), so the catch-all branch is arbitrary. -/
def pyScalarStr : PyVal → String
  | PyVal.null => "None"
  | PyVal.bool b => if b then "True" else "False"
  | PyVal.int n => toString n
  | PyVal.str s => s
  | v => jsonDumps v

/-- `DataExporter._prepare_data_for_tabular` (src/exporters.py): a dict is
wrapped into a one-element list, a list keeps only its dict elements, and
anything else becomes `[{'data': str(data)}]`. -/
def prepare_data_for_tabular : PyVal → List PyVal
  | PyVal.dict d => [PyVal.dict d]
  | PyVal.list xs => xs.filter pyIsDict
  | v => [PyVal.dict [("data", PyVal.str (pyScalarStr v))]]

/-- `row.keys()` as used by the header loop of `export_csv`: the keys of a
dict row, nothing for a non-dict row (the `isinstance(row, dict)` guard). -/
def rowKeys : PyVal → List String
  | PyVal.dict d => keysOf d
  | _ => []

/-- Lexicographic comparison of character lists by code point: the order
Python's `sorted` uses on strings. -/
def charsLe : List Char → List Char → Bool
  | [], _ => true
  | _ :: _, [] => false
  | a :: as, b :: bs =>
    if a < b then true else if a = b then charsLe as bs else false

/-- Python's `<=` on strings: code-point lexicographic. -/
def strLe (a b : String) : Prop := charsLe a.data b.data = true

instance : DecidableRel strLe := fun a b =>
  inferInstanceAs (Decidable (charsLe a.data b.data = true))

theorem charsLe_cons (a b : Char) (as bs : List Char) :
    charsLe (a :: as) (b :: bs) = true ↔
      a < b ∨ (a = b ∧ charsLe as bs = true) := by
  rw [charsLe]
  by_cases h1 : a < b
  · simp [h1]
  · by_cases h2 : a = b <;> simp [h1, h2]

theorem charsLe_total : ∀ as bs : List Char,
    charsLe as bs = true ∨ charsLe bs as = true := by
  intro as
  induction as with
  | nil => intro bs; exact Or.inl rfl
  | cons a as ih =>
    intro bs
    cases bs with
    | nil => exact Or.inr rfl
    | cons b bs =>
      rcases lt_trichotomy a b with h | h | h
      · exact Or.inl ((charsLe_cons a b as bs).2 (Or.inl h))
      · subst h
        rcases ih bs with h | h
        · exact Or.inl ((charsLe_cons a a as bs).2 (Or.inr ⟨rfl, h⟩))
        · exact Or.inr ((charsLe_cons a a bs as).2 (Or.inr ⟨rfl, h⟩))
      · exact Or.inr ((charsLe_cons b a bs as).2 (Or.inl h))

theorem charsLe_trans : ∀ as bs cs : List Char,
    charsLe as bs = true → charsLe bs cs = true → charsLe as cs = true := by
  intro as
  induction as with
  | nil => intro bs cs _ _; rfl
  | cons a as ih =>
    intro bs cs hab hbc
    cases bs with
    | nil => exact absurd hab (by simp [charsLe])
    | cons b bs =>
      cases cs with
      | nil => exact absurd hbc (by simp [charsLe])
      | cons c cs =>
        rcases (charsLe_cons a b as bs).1 hab with h1 | ⟨h1, h1r⟩ <;>
          rcases (charsLe_cons b c bs cs).1 hbc with h2 | ⟨h2, h2r⟩
        · exact (charsLe_cons a c as cs).2 (Or.inl (lt_trans h1 h2))
        · exact (charsLe_cons a c as cs).2 (Or.inl (h2 ▸ h1))
        · exact (charsLe_cons a c as cs).2 (Or.inl (h1 ▸ h2))
        · exact (charsLe_cons a c as cs).2
            (Or.inr ⟨h1.trans h2, ih bs cs h1r h2r⟩)

theorem charsLe_antisymm : ∀ as bs : List Char,
    charsLe as bs = true → charsLe bs as = true → as = bs := by
  intro as
  induction as with
  | nil =>
    intro bs _ hba
    cases bs with
    | nil => rfl
    | cons b bs => exact absurd hba (by simp [charsLe])
  | cons a as ih =>
    intro bs hab hba
    cases bs with
    | nil => exact absurd hab (by simp [charsLe])
    | cons b bs =>
      rcases (charsLe_cons a b as bs).1 hab with h1 | ⟨h1, h1r⟩ <;>
        rcases (charsLe_cons b a bs as).1 hba with h2 | ⟨h2, h2r⟩
      · exact absurd h2 (not_lt_of_gt h1)
      · exact absurd h1 (by simp [h2])
      · exact absurd h2 (by simp [h1])
      · rw [h1, ih bs h1r h2r]

instance : IsTotal String strLe :=
  ⟨fun a b => charsLe_total a.data b.data⟩

instance : IsTrans String strLe :=
  ⟨fun a b c => charsLe_trans a.data b.data c.data⟩

instance : IsAntisymm String strLe :=
  ⟨fun a b hab hba => by
    have h := charsLe_antisymm a.data b.data hab hba
    cases a; cases b; exact congrArg String.mk h⟩

/-- The header computation of `export_csv` (src/exporters.py): the set
union of the keys of all rows, sorted. The Python set is modelled by
deduplication; `sorted` by insertion sort under Python's code-point
string order `strLe`. -/
def headersOf (rows : List PyVal) : List String :=
  List.insertionSort strLe
    ((rows.foldl (fun acc r => acc ++ rowKeys r) []).dedup)

/-- One cell of the CSV writer loop of `export_csv`:
`value = row.get(key, '')`, then `json.dumps` for a list or dict value,
`''` for `None`, and `str(value)` otherwise. -/
def cellOf (row : List (String × PyVal)) (key : String) : String :=
  match lookupD row key with
  | none => ""
  | some PyVal.null => ""
  | some (PyVal.list xs) => jsonDumps (PyVal.list xs)
  | some (PyVal.dict d) => jsonDumps (PyVal.dict d)
  | some v => pyScalarStr v

/-- The data rows the CSV writer emits: one row of cells per dict row,
cells in header order; non-dict rows are skipped by the
`isinstance(row, dict)` guard. -/
def csvRows (headers : List String) (rows : List PyVal) :
    List (List String) :=
  rows.filterMap fun row =>
    match row with
    | PyVal.dict d => some (headers.map (cellOf d))
    | _ => none

/-- The table `export_csv` writes (header row and data rows), with the
file I/O stripped: `none` models the early `if not rows:` return that
writes no table. -/
def export_csv_table (data : PyVal) :
    Option (List String × List (List String)) :=
  let rows := prepare_data_for_tabular data
  if rows.isEmpty then none
  else
    let headers := headersOf rows
    some (headers, csvRows headers rows)

theorem mem_keysFold (rows : List PyVal) (acc : List String) (k : String) :
    k ∈ rows.foldl (fun acc r => acc ++ rowKeys r) acc ↔
      k ∈ acc ∨ ∃ r ∈ rows, k ∈ rowKeys r := by
  induction rows generalizing acc with
  | nil => simp
  | cons r rows ih =>
    simp only [List.foldl_cons, ih, List.mem_append, List.mem_cons]
    constructor
    · rintro (((h | h) | ⟨r0, hr0, hk0⟩))
      · exact Or.inl h
      · exact Or.inr ⟨r, Or.inl rfl, h⟩
      · exact Or.inr ⟨r0, Or.inr hr0, hk0⟩
    · rintro ((h | ⟨r0, (rfl | hr0), hk0⟩))
      · exact Or.inl (Or.inl h)
      · exact Or.inl (Or.inr hk0)
      · exact Or.inr ⟨r0, hr0, hk0⟩

theorem mem_headersOf (rows : List PyVal) (k : String) :
    k ∈ headersOf rows ↔ ∃ r ∈ rows, k ∈ rowKeys r := by
  unfold headersOf
  rw [List.mem_insertionSort, List.mem_dedup, mem_keysFold]
  simp

theorem sorted_headersOf (rows : List PyVal) :
    (headersOf rows).Sorted strLe :=
  List.sorted_insertionSort _ _

theorem nodup_headersOf (rows : List PyVal) : (headersOf rows).Nodup :=
  ((List.perm_insertionSort _ _).nodup_iff).2 (List.nodup_dedup _)

/-- The header row depends only on the set of keys occurring across the
rows, not on row order or key insertion order. -/
theorem headersOf_ext (rows1 rows2 : List PyVal)
    (h : ∀ k, (∃ r ∈ rows1, k ∈ rowKeys r) ↔ (∃ r ∈ rows2, k ∈ rowKeys r)) :
    headersOf rows1 = headersOf rows2 :=
  List.eq_of_perm_of_sorted
    ((List.perm_ext_iff_of_nodup (nodup_headersOf rows1)
      (nodup_headersOf rows2)).2
      (fun k => by rw [mem_headersOf, mem_headersOf]; exact h k))
    (sorted_headersOf rows1) (sorted_headersOf rows2)

/-- C4: tabular export wraps a single mapping into a one-row table, keeps
only mapping elements of a list input, uses as header the sorted union of
keys across the kept rows (independent of insertion order), renders a
missing key as an empty cell, inlines nested mapping/list values with the
compact `json.dumps` encoding, and on `[{a:1,b:2},{b:3,c:4}]` produces
header `[a,b,c]` with rows `[1,2,""]` and `["",3,4]`. -/
theorem tabular_export_spec :
    (∀ d : List (String × PyVal),
      prepare_data_for_tabular (PyVal.dict d) = [PyVal.dict d]) ∧
    (∀ xs : List PyVal,
      prepare_data_for_tabular (PyVal.list xs) = xs.filter pyIsDict) ∧
    (∀ rows : List PyVal,
      (headersOf rows).Sorted strLe ∧
      (headersOf rows).Nodup ∧
      ∀ k, k ∈ headersOf rows ↔ ∃ r ∈ rows, k ∈ rowKeys r) ∧
    (∀ rows1 rows2 : List PyVal,
      (∀ k, (∃ r ∈ rows1, k ∈ rowKeys r) ↔ (∃ r ∈ rows2, k ∈ rowKeys r)) →
      headersOf rows1 = headersOf rows2) ∧
    (∀ (d : List (String × PyVal)) (k : String),
      lookupD d k = none → cellOf d k = "") ∧
    (∀ (d : List (String × PyVal)) (k : String) (v : PyVal),
      lookupD d k = some v → pyIsDict v = true ∨ pyIsList v = true →
      cellOf d k = jsonDumps v) ∧
    export_csv_table
      (PyVal.list [PyVal.dict [("a", PyVal.int 1), ("b", PyVal.int 2)],
                   PyVal.dict [("b", PyVal.int 3), ("c", PyVal.int 4)]]) =
      some (["a", "b", "c"],
            [["1", "2", ""], ["", "3", "4"]]) := by
  refine ⟨?_, ?_, ?_, headersOf_ext, ?_, ?_, ?_⟩
  · intro d; rfl
  · intro xs; rfl
  · intro rows
    exact ⟨sorted_headersOf rows, nodup_headersOf rows, mem_headersOf rows⟩
  · intro d k h; simp [cellOf, h]
  · intro d k v h hv
    rcases hv with hv | hv <;> cases v <;> simp_all [pyIsDict, pyIsList] <;>
      simp [cellOf, h]
  · decide

/-- Witness for C4: the missing-key and nested-value cell rules applied to
the second example row. -/
theorem tabular_export_spec_witness :
    cellOf [("b", PyVal.int 3), ("c", PyVal.int 4)] "a" = "" ∧
    cellOf [("n", PyVal.list [PyVal.int 1])] "n" =
      jsonDumps (PyVal.list [PyVal.int 1]) :=
  ⟨tabular_export_spec.2.2.2.2.1 [("b", PyVal.int 3), ("c", PyVal.int 4)]
    "a" (by simp [lookupD]),
   tabular_export_spec.2.2.2.2.2.1 [("n", PyVal.list [PyVal.int 1])] "n"
    (PyVal.list [PyVal.int 1]) (by simp [lookupD]) (Or.inr rfl)⟩

/-! ### `BatchExporter.export_multiple` (src/exporters.py) -/

/-- Python `f"{n:03d}"`: decimal, left-padded with zeros to width 3. -/
def pad3 (n : Nat) : String :=
  let s := toString n
  if s.length ≥ 3 then s
  else String.mk (List.replicate (3 - s.length) '0') ++ s

/-- The loop of `BatchExporter.export_multiple` (src/exporters.py),
abstracted over the single-dataset exporter `exportFn` (which models
`self.exporter.export(data, format_type, filename)`, returning a path or
raising): dataset `i` (0-based) is exported under the filename
`f"{base_filename}_{i+1:03d}"`; a success appends the returned path, a
raised error is logged and the dataset skipped; the loop itself never
raises. -/
def exportMultipleAux (exportFn : PyVal → String → Except String String)
    (base : String) : Nat → List PyVal → List String
  | _, [] => []
  | i, d :: rest =>
    match exportFn d (base ++ "_" ++ pad3 (i + 1)) with
    | Except.ok path => path :: exportMultipleAux exportFn base (i + 1) rest
    | Except.error _ => exportMultipleAux exportFn base (i + 1) rest

/-- `BatchExporter.export_multiple(datasets, base_filename)`. -/
def export_multiple (exportFn : PyVal → String → Except String String)
    (datasets : List PyVal) (base : String) : List String :=
  exportMultipleAux exportFn base 0 datasets

/-- A concrete single-dataset exporter that fails on the marker dataset
`PyVal.str "bad"` and succeeds (returning the filename) otherwise. -/
def exampleExportFn : PyVal → String → Except String String :=
  fun d name =>
    match d with
    | PyVal.str s =>
      if s = "bad" then Except.error "export failed" else Except.ok name
    | _ => Except.ok name

theorem exportMultipleAux_eq (f : PyVal → String → Except String String)
    (base : String) :
    ∀ (ds : List PyVal) (i : Nat),
    exportMultipleAux f base i ds =
      (List.enumFrom i ds).filterMap
        (fun p => (f p.2 (base ++ "_" ++ pad3 (p.1 + 1))).toOption) := by
  intro ds
  induction ds with
  | nil => intro i; rfl
  | cons d rest ih =>
    intro i
    rw [exportMultipleAux]
    cases hf : f d (base ++ "_" ++ pad3 (i + 1)) with
    | ok path => simp [List.enumFrom, hf, Except.toOption, ih]
    | error e => simp [List.enumFrom, hf, Except.toOption, ih]

/-- C7: batch export hands dataset `i` the sequential numbered filename
`base_{i+1:03d}`, keeps exactly the successfully exported paths in order,
skips a failing record without aborting or raising (it is a total
function), and on a 3-record batch whose middle record fails it yields
exactly the 2 paths `batch_001` and `batch_003`. -/
theorem batch_export_spec :
    (∀ (f : PyVal → String → Except String String) (base : String)
      (ds : List PyVal),
      export_multiple f ds base =
        ds.enum.filterMap
          (fun p => (f p.2 (base ++ "_" ++ pad3 (p.1 + 1))).toOption)) ∧
    export_multiple exampleExportFn
      [PyVal.dict [("t", PyVal.str "x")], PyVal.str "bad",
       PyVal.dict [("u", PyVal.str "y")]] "batch" =
      ["batch_001", "batch_003"] ∧
    (export_multiple exampleExportFn
      [PyVal.dict [("t", PyVal.str "x")], PyVal.str "bad",
       PyVal.dict [("u", PyVal.str "y")]] "batch").length = 2 := by
  refine ⟨?_, ?_, ?_⟩
  · intro f base ds
    rw [export_multiple, exportMultipleAux_eq, List.enum]
  · decide
  · decide

/-! ### `clean_text` (src/utils.py) -/

/-- Python's `\s` character class for `str` patterns (and the default
`str.strip` set): ASCII whitespace, the C1 separators, NBSP and the
Unicode space/line/paragraph separators. -/
def pyIsSpace (c : Char) : Bool :=
  let n := c.toNat
  n == 0x20 || n == 0x09 || n == 0x0a || n == 0x0d || n == 0x0b ||
  n == 0x0c || (decide (0x1c ≤ n) && decide (n ≤ 0x1f)) || n == 0x85 ||
  n == 0xa0 || n == 0x1680 ||
  (decide (0x2000 ≤ n) && decide (n ≤ 0x200a)) ||
  n == 0x2028 || n == 0x2029 || n == 0x202f || n == 0x205f || n == 0x3000

/-- `text.strip()`: remove leading and trailing whitespace. -/
def stripChars (l : List Char) : List Char :=
  ((l.dropWhile pyIsSpace).reverse.dropWhile pyIsSpace).reverse

/-- `re.sub(r'\s+', ' ', text)`: replace every maximal whitespace run by
one space. -/
def collapseWs : List Char → List Char
  | [] => []
  | [c] => if pyIsSpace c then [' '] else [c]
  | c :: d :: rest =>
    if pyIsSpace c then
      if pyIsSpace d then collapseWs (d :: rest)
      else ' ' :: collapseWs (d :: rest)
    else c :: collapseWs (d :: rest)

/-- The character class kept by
`re.sub(r'[^\x20-\x7E -￿]', '', text)`. -/
def keepPrintable (c : Char) : Bool :=
  (decide (0x20 ≤ c.toNat) && decide (c.toNat ≤ 0x7e)) ||
  (decide (0xa0 ≤ c.toNat) && decide (c.toNat ≤ 0xffff))

/-- `text.rsplit(' ', 1)[0]`: everything before the last space, the whole
string when it has no space. -/
def dropAfterLastSpace (l : List Char) : List Char :=
  if l.contains ' ' then
    ((l.reverse.dropWhile (fun c => !(c == ' '))).tail).reverse
  else l

/-- The whitespace-collapse and printable-filter steps of `clean_text`
(src/utils.py), before truncation. -/
def cleanedText (t : List Char) : List Char :=
  (collapseWs (stripChars t)).filter keepPrintable

/-- `clean_text(text, max_length)` (src/utils.py) on the character list of
the text: empty input returns `""`; otherwise whitespace is collapsed,
non-printables removed, and — when `max_length` is truthy and the cleaned
text is longer — the text is cut to its first `max_length` characters,
stripped of the part after the last space among them, and given an `...`
suffix. -/
def clean_text (text : List Char) (max_length : Option Nat) : List Char :=
  if text = [] then []
  else
    let t := cleanedText text
    match max_length with
    | some m =>
      if m ≠ 0 ∧ m < t.length then
        dropAfterLastSpace (t.take m) ++ ['.', '.', '.']
      else t
    | none => t

theorem length_dropWhile_le_aux (p : Char → Bool) (l : List Char) :
    (l.dropWhile p).length ≤ l.length := by
  induction l with
  | nil => simp
  | cons c l ih =>
    rw [List.dropWhile_cons]
    split
    · exact le_trans ih (by simp)
    · exact le_refl _

theorem length_dropAfterLastSpace (l : List Char) :
    (dropAfterLastSpace l).length ≤ l.length := by
  unfold dropAfterLastSpace
  split
  · rw [List.length_reverse]
    have h1 : ((l.reverse.dropWhile (fun c => !(c == ' '))).tail).length ≤
        (l.reverse.dropWhile (fun c => !(c == ' '))).length := by
      rw [List.length_tail]
      omega
    have h2 := length_dropWhile_le_aux (fun c => !(c == ' ')) l.reverse
    rw [List.length_reverse] at h2
    omega
  · exact le_refl _

theorem space_split_of_contains (r : List Char) :
    r.contains ' ' = true →
    r.dropWhile (fun c => !(c == ' ')) =
      ' ' :: (r.dropWhile (fun c => !(c == ' '))).tail ∧
    (r.takeWhile (fun c => !(c == ' '))).contains ' ' = false := by
  induction r with
  | nil => intro h; simp [List.contains] at h
  | cons c r ih =>
    intro h
    by_cases hc : c = ' '
    · subst hc
      constructor
      · rw [List.dropWhile_cons]
        simp
      · rw [List.takeWhile_cons]
        simp
    · have hcb : (!(c == ' ')) = true := by simp [hc]
      have hr : r.contains ' ' = true := by
        simp only [List.contains_cons] at h
        rcases Bool.or_eq_true_iff.1 h with h1 | h1
        · have hce : ' ' = c := by simpa using h1
          exact absurd hce.symm hc
        · exact h1
      obtain ⟨ih1, ih2⟩ := ih hr
      constructor
      · rw [List.dropWhile_cons, if_pos hcb]
        exact ih1
      · rw [List.takeWhile_cons, if_pos hcb]
        simp only [List.contains_cons, Bool.or_eq_false_iff]
        exact ⟨by simpa using Ne.symm hc, ih2⟩

/-- When the text has a space, `rsplit(' ', 1)[0]` cuts exactly at the
last space: the text is the kept part, the space, and a space-free tail. -/
theorem dropAfterLastSpace_word_boundary (l : List Char)
    (h : l.contains ' ' = true) :
    ∃ suffix : List Char, suffix.contains ' ' = false ∧
      l = dropAfterLastSpace l ++ ' ' :: suffix := by
  have hr : l.reverse.contains ' ' = true := by
    simpa using h
  obtain ⟨h1, h2⟩ := space_split_of_contains l.reverse hr
  refine ⟨(l.reverse.takeWhile (fun c => !(c == ' '))).reverse, ?_, ?_⟩
  · simpa using h2
  · have hsplit : l.reverse.takeWhile (fun c => !(c == ' ')) ++
        l.reverse.dropWhile (fun c => !(c == ' ')) = l.reverse :=
      List.takeWhile_append_dropWhile (fun c => !(c == ' ')) l.reverse
    have : l = (l.reverse.dropWhile (fun c => !(c == ' '))).reverse ++
        (l.reverse.takeWhile (fun c => !(c == ' '))).reverse := by
      conv_lhs => rw [← l.reverse_reverse, ← hsplit]
      rw [List.reverse_append]
    rw [dropAfterLastSpace, if_pos h]
    conv_lhs => rw [this]
    conv_lhs => rw [h1]
    simp

/-- C5 (amended): for a title whose cleaned text exceeds 200 characters,
`clean_text(title, 200)` keeps the first 200 cleaned characters, drops the
segment after the last space among them (keeping all 200 when they contain
no space, i.e. cutting mid-word), and appends `...`; the result is at most
203 characters long — not at most 200 as claimed. -/
theorem clean_text_truncation_spec :
    (∀ t : List Char, 200 < (cleanedText t).length →
      clean_text t (some 200) =
        dropAfterLastSpace ((cleanedText t).take 200) ++ ['.', '.', '.']) ∧
    (∀ t : List Char, 200 < (cleanedText t).length →
      (clean_text t (some 200)).length ≤ 203) ∧
    (∀ l : List Char, l.contains ' ' = true →
      ∃ suffix : List Char, suffix.contains ' ' = false ∧
        l = dropAfterLastSpace l ++ ' ' :: suffix) ∧
    (∀ l : List Char, l.contains ' ' = false → dropAfterLastSpace l = l) := by
  have hmain : ∀ t : List Char, 200 < (cleanedText t).length →
      clean_text t (some 200) =
        dropAfterLastSpace ((cleanedText t).take 200) ++ ['.', '.', '.'] := by
    intro t h
    have ht : t ≠ [] := by
      intro he
      rw [he] at h
      simp [cleanedText, stripChars, collapseWs] at h
    rw [clean_text, if_neg ht]
    simp only []
    rw [if_pos ⟨by norm_num, h⟩]
  refine ⟨hmain, ?_, dropAfterLastSpace_word_boundary, ?_⟩
  · intro t h
    rw [hmain t h, List.length_append]
    have h1 : (dropAfterLastSpace ((cleanedText t).take 200)).length ≤ 200 :=
      le_trans (length_dropAfterLastSpace _) (by simp)
    simp only [List.length_cons, List.length_nil]
    omega
  · intro l h
    have hne : ¬ (l.contains ' ' = true) := by
      rw [h]
      exact Bool.false_ne_true
    rw [dropAfterLastSpace, if_neg hne]

set_option maxRecDepth 10000 in
/-- Witness for C5 (amended): a 201-character space-free title is cut to
its first 200 characters plus `...` (203 characters). -/
theorem clean_text_truncation_spec_witness :
    clean_text (List.replicate 201 'a') (some 200) =
      dropAfterLastSpace ((cleanedText (List.replicate 201 'a')).take 200) ++
        ['.', '.', '.'] ∧
    (clean_text (List.replicate 201 'a') (some 200)).length ≤ 203 :=
  ⟨clean_text_truncation_spec.1 (List.replicate 201 'a') (by decide),
   clean_text_truncation_spec.2.1 (List.replicate 201 'a') (by decide)⟩

set_option maxRecDepth 10000 in
/-- Counterexample to C5 as stated: a 201-character title with no space
cleans to itself, and truncation yields 200 characters plus an ellipsis,
203 characters in all — more than the claimed bound of 200, and not cut
at any word boundary. -/
theorem clean_text_length_counterexample :
    (clean_text (List.replicate 201 'a') (some 200)).length = 203 ∧
    ¬ ((clean_text (List.replicate 201 'a') (some 200)).length ≤ 200) := by
  constructor
  · decide
  · decide

/-! ### URL handling: `normalize_url`, `is_valid_url` and the link/image
filter of `DataValidator.validate_url_data` (src/utils.py). The helpers
`urlparse`, `urlunparse` and `urljoin` model Python's `urllib.parse`. -/

/-- `urllib.parse`'s `scheme_chars`: letters, digits, `+`, `-`, `.`. -/
def isSchemeChar (c : Char) : Bool :=
  c.isAlpha || c.isDigit || c == '+' || c == '-' || c == '.'

/-- The input sanitation of `urlsplit`: strip leading/trailing C0 controls
and spaces, remove every tab, CR and LF. -/
def sanitizeUrl (l : List Char) : List Char :=
  (((l.dropWhile (fun c => decide (c.toNat ≤ 0x20))).reverse.dropWhile
      (fun c => decide (c.toNat ≤ 0x20))).reverse).filter
    (fun c => !(c == '\t' || c == '\r' || c == '\n'))

/-- The scheme extraction of `urlsplit`: a scheme is a prefix before the
first `:` that starts at position 0 is excluded, begins with an ASCII
letter and consists of scheme characters; it is lower-cased. Returns the
scheme and the rest of the URL. -/
def splitScheme (l : List Char) : String × List Char :=
  match l.findIdx? (fun c => c == ':') with
  | none => ("", l)
  | some i =>
    match l.take i with
    | [] => ("", l)
    | c0 :: pre =>
      if c0.isAlpha && (c0 :: pre).all isSchemeChar then
        (String.mk ((c0 :: pre).map Char.toLower), l.drop (i + 1))
      else ("", l)

/-- The netloc extraction of `urlsplit`: after a leading `//`, up to the
first `/`, `?` or `#`. -/
def splitNetloc (l : List Char) : List Char × List Char :=
  if l.take 2 = ['/', '/'] then
    ((l.drop 2).takeWhile (fun c => !(c == '/' || c == '?' || c == '#')),
     (l.drop 2).dropWhile (fun c => !(c == '/' || c == '?' || c == '#')))
  else ([], l)

/-- `url.split('#', 1)` when `'#' in url`, else no fragment. -/
def splitFragment (l : List Char) : List Char × List Char :=
  if l.contains '#' then
    (l.takeWhile (fun c => !(c == '#')),
     (l.dropWhile (fun c => !(c == '#'))).tail)
  else (l, [])

/-- `url.split('?', 1)` when `'?' in url`, else no query. -/
def splitQuery (l : List Char) : List Char × List Char :=
  if l.contains '?' then
    (l.takeWhile (fun c => !(c == '?')),
     (l.dropWhile (fun c => !(c == '?'))).tail)
  else (l, [])

/-- Index of the last occurrence of `c`, if any. -/
def lastIdxOf (c : Char) (l : List Char) : Option Nat :=
  match l.reverse.findIdx? (fun x => x == c) with
  | some j => some (l.length - 1 - j)
  | none => none

/-- First index satisfying `p` at or after `start`, if any. -/
def findIdxFrom (p : Char → Bool) (l : List Char) (start : Nat) :
    Option Nat :=
  match (l.drop start).findIdx? p with
  | some i => some (start + i)
  | none => none

/-- `urllib.parse._splitparams`: with a `/` in the path, a `;` is looked
for only after the last `/`; otherwise the first `;` splits. -/
def splitParams (l : List Char) : List Char × List Char :=
  if l.contains '/' then
    match lastIdxOf '/' l with
    | some j =>
      match findIdxFrom (fun c => c == ';') l j with
      | some i => (l.take i, l.drop (i + 1))
      | none => (l, [])
    | none => (l, [])
  else
    match l.findIdx? (fun c => c == ';') with
    | some i => (l.take i, l.drop (i + 1))
    | none => (l, [])

/-- The six components of `urllib.parse.urlparse`. -/
structure UrlParts where
  scheme : String
  netloc : String
  path : String
  params : String
  query : String
  fragment : String
deriving DecidableEq

/-- `urllib.parse`'s `uses_params` list. -/
def uses_params : List String :=
  ["", "ftp", "hdl", "prospero", "http", "imap", "https", "shttp", "rtsp",
   "rtspu", "sip", "sips", "mms", "sftp", "tel"]

/-- `urllib.parse`'s `uses_relative` list. -/
def uses_relative : List String :=
  ["", "ftp", "http", "gopher", "nntp", "imap", "wais", "file", "https",
   "shttp", "mms", "prospero", "rtsp", "rtspu", "sftp", "svn", "svn+ssh",
   "ws", "wss"]

/-- `urllib.parse`'s `uses_netloc` list. -/
def uses_netloc : List String :=
  ["", "ftp", "http", "gopher", "nntp", "telnet", "imap", "wais", "file",
   "mms", "https", "shttp", "snews", "prospero", "rtsp", "rtspu", "rsync",
   "svn", "svn+ssh", "sftp", "nfs", "git", "git+ssh", "ws", "wss"]

/-- The mismatched-bracket check of `urlsplit`: a `[` in the netloc
without a `]`, or a `]` without a `[`, makes CPython raise
`ValueError("Invalid IPv6 URL")`. -/
def netlocBracketsMismatched (netloc : List Char) : Bool :=
  (netloc.contains '[' && !(netloc.contains ']')) ||
  (netloc.contains ']' && !(netloc.contains '['))

/-- `urllib.parse.urlparse(url, defaultScheme)`: sanitize, then split off
scheme (falling back to the default), netloc, fragment, query, and — for
schemes that use parameters — the `;`-parameters of the last path
segment. A netloc with mismatched square brackets raises
`ValueError("Invalid IPv6 URL")`, modelled as `Except.error`. (The
stricter bracketed-host validation CPython 3.11 added for well-matched
brackets is not modelled.) -/
def urlparseWith (url : String) (defaultScheme : String) :
    Except String UrlParts :=
  let l := sanitizeUrl url.data
  let sr := splitScheme l
  let scheme := if sr.1 = "" then defaultScheme else sr.1
  let nr := splitNetloc sr.2
  if netlocBracketsMismatched nr.1 then Except.error "Invalid IPv6 URL"
  else
    let fr := splitFragment nr.2
    let qr := splitQuery fr.1
    let pp :=
      if scheme ∈ uses_params ∧ qr.1.contains ';' then splitParams qr.1
      else (qr.1, [])
    Except.ok ⟨scheme, String.mk nr.1, String.mk pp.1, String.mk pp.2,
      String.mk qr.2, String.mk fr.2⟩

/-- `urllib.parse.urlparse(url)` (raising modelled as `Except.error`). -/
def urlparse (url : String) : Except String UrlParts := urlparseWith url ""

/-- `urllib.parse.urlunsplit` on strings. -/
def urlunsplitStr (scheme netloc url query fragment : String) : String :=
  let u1 :=
    if netloc ≠ "" ∨ (url ≠ "" ∧ url.data.take 2 = ['/', '/']) then
      "//" ++ netloc ++
        (if url ≠ "" ∧ url.data.take 1 ≠ ['/'] then "/" ++ url else url)
    else url
  let u2 := if scheme ≠ "" then scheme ++ ":" ++ u1 else u1
  let u3 := if query ≠ "" then u2 ++ "?" ++ query else u2
  if fragment ≠ "" then u3 ++ "#" ++ fragment else u3

/-- `urllib.parse.urlunparse`: params are re-attached to the path with a
`;`, then `urlunsplit`. -/
def urlunparse (p : UrlParts) : String :=
  urlunsplitStr p.scheme p.netloc
    (if p.params ≠ "" then p.path ++ ";" ++ p.params else p.path)
    p.query p.fragment

/-- `path.split('/')` (never empty). -/
def splitOnSlash : List Char → List (List Char)
  | [] => [[]]
  | c :: rest =>
    match splitOnSlash rest with
    | [] => [[c]]
    | h :: t => if c == '/' then [] :: h :: t else (c :: h) :: t

/-- `'/'.join(segments)`. -/
def joinSlash : List (List Char) → List Char
  | [] => []
  | [x] => x
  | x :: y :: rest => x ++ '/' :: joinSlash (y :: rest)

/-- `segments[1:-1] = filter(None, segments[1:-1])`: drop empty segments,
keeping the first and last elements. -/
def filterMiddle : List (List Char) → List (List Char)
  | [] => []
  | x :: rest => x :: filterMiddleAux rest
where filterMiddleAux : List (List Char) → List (List Char)
  | [] => []
  | [y] => [y]
  | y :: z :: t =>
    if y.isEmpty then filterMiddleAux (z :: t)
    else y :: filterMiddleAux (z :: t)

/-- The `..` / `.` resolution loop of `urljoin`. -/
def resolveSegments (segs : List (List Char)) : List (List Char) :=
  segs.foldl
    (fun acc seg =>
      if seg = ['.', '.'] then acc.dropLast
      else if seg = ['.'] then acc
      else acc ++ [seg]) []

/-- `urllib.parse.urljoin(base, url)`: parses the base and then the URL
(so a parse error in either propagates), then resolves the reference. -/
def urljoin (base url : String) : Except String String :=
  if base = "" then Except.ok url
  else if url = "" then Except.ok base
  else
    match urlparseWith base "" with
    | Except.error e => Except.error e
    | Except.ok b =>
      match urlparseWith url b.scheme with
      | Except.error e => Except.error e
      | Except.ok u =>
        Except.ok (
          if u.scheme ≠ b.scheme ∨ u.scheme ∉ uses_relative then url
          else if u.scheme ∈ uses_netloc ∧ u.netloc ≠ "" then urlunparse u
          else
            let netloc :=
              if u.scheme ∈ uses_netloc then b.netloc else u.netloc
            if u.path = "" ∧ u.params = "" then
              urlunparse ⟨u.scheme, netloc, b.path, b.params,
                (if u.query = "" then b.query else u.query), u.fragment⟩
            else
              let base_parts0 := splitOnSlash b.path.data
              let base_parts :=
                if base_parts0.getLast? = some [] then base_parts0
                else base_parts0.dropLast
              let segments :=
                if u.path.data.take 1 = ['/'] then splitOnSlash u.path.data
                else filterMiddle (base_parts ++ splitOnSlash u.path.data)
              let resolved0 := resolveSegments segments
              let resolved :=
                if segments.getLast? = some ['.'] ∨
                   segments.getLast? = some ['.', '.'] then resolved0 ++ [[]]
                else resolved0
              let joined := joinSlash resolved
              urlunparse ⟨u.scheme, netloc,
                String.mk (if joined = [] then ['/'] else joined),
                u.params, u.query, u.fragment⟩)

/-- `url.startswith(('http://', 'https://'))`. -/
def startsWithHttpOrHttps (l : List Char) : Bool :=
  l.take 7 == "http://".data || l.take 8 == "https://".data

/-- `normalize_url(url, base_url)` (src/utils.py): empty input gives `""`;
a relative URL (not starting with `http://`/`https://`) is joined onto a
truthy base; the result is re-built from its parse. The source has no
try/except, so a `ValueError` raised by `urljoin` or `urlparse`
propagates to the caller — modelled as `Except.error`. -/
def normalize_url (url : String) (base_url : Option String) :
    Except String String :=
  if url = "" then Except.ok ""
  else
    match
      (match base_url with
       | some b =>
         if b ≠ "" ∧ ¬ (startsWithHttpOrHttps url.data = true) then
           urljoin b url
         else Except.ok url
       | none => Except.ok url) with
    | Except.error e => Except.error e
    | Except.ok u =>
      match urlparse u with
      | Except.error e => Except.error e
      | Except.ok p => Except.ok (urlunparse p)

/-- `is_valid_url(url)` (src/utils.py): `all([result.scheme,
result.netloc])` — both the scheme and the host must be non-empty; the
source's `except` branch maps a parse error to `False`. -/
def is_valid_url (url : String) : Bool :=
  match urlparse url with
  | Except.ok r => !(r.scheme == "") && !(r.netloc == "")
  | Except.error _ => false

/-- One element of `data['links']` as `validate_url_data` sees it: a dict
with a `url` key (and optional `text`), or anything else
(`LinkEntry.other`: a non-dict element or a dict without `url`). -/
inductive LinkEntry where
  | entry (url : String) (text : Option String)
  | other

/-- One element of `data['images']`: a dict with a `src` key (and
optional `alt` / `title`), or anything else. -/
inductive ImageEntry where
  | entry (src : String) (alt : Option String) (title : Option String)
  | other

/-- A validated link as `validate_url_data` emits it. -/
structure CleanLink where
  url : String
  text : String
deriving DecidableEq

/-- A validated image as `validate_url_data` emits it. -/
structure CleanImage where
  src : String
  alt : String
  title : String
deriving DecidableEq

/-- `clean_text` on strings. -/
def clean_text_str (s : String) (m : Option Nat) : String :=
  String.mk (clean_text s.data m)

/-- The `links` loop of `DataValidator.validate_url_data` (src/utils.py):
each dict entry with a `url` key is resolved against `data.get('url')`
(a raised `ValueError` propagates out of the whole call, discarding all
results) and kept exactly when `is_valid_url` accepts the resolved URL;
non-dict entries and dicts without `url` are skipped. -/
def validateLinks (base : Option String) :
    List LinkEntry → Except String (List CleanLink)
  | [] => Except.ok []
  | LinkEntry.other :: rest => validateLinks base rest
  | LinkEntry.entry u t :: rest =>
    match normalize_url u base with
    | Except.error e => Except.error e
    | Except.ok cu =>
      match validateLinks base rest with
      | Except.error e => Except.error e
      | Except.ok tail =>
        Except.ok (if is_valid_url cu then
          ⟨cu, clean_text_str (t.getD "") (some 100)⟩ :: tail
        else tail)

/-- The `images` loop of `DataValidator.validate_url_data`
(src/utils.py). -/
def validateImages (base : Option String) :
    List ImageEntry → Except String (List CleanImage)
  | [] => Except.ok []
  | ImageEntry.other :: rest => validateImages base rest
  | ImageEntry.entry src alt title :: rest =>
    match normalize_url src base with
    | Except.error e => Except.error e
    | Except.ok cs =>
      match validateImages base rest with
      | Except.error e => Except.error e
      | Except.ok tail =>
        Except.ok (if is_valid_url cs then
          ⟨cs, clean_text_str (alt.getD "") (some 100),
            clean_text_str (title.getD "") (some 100)⟩ :: tail
        else tail)

/-- Whether an entry's URL resolves without a parse error. -/
def entryResolves (base : Option String) : LinkEntry → Bool
  | LinkEntry.entry u _ =>
    match normalize_url u base with
    | Except.ok _ => true
    | Except.error _ => false
  | LinkEntry.other => true

/-- Whether an image entry's URL resolves without a parse error. -/
def imageResolves (base : Option String) : ImageEntry → Bool
  | ImageEntry.entry src _ _ =>
    match normalize_url src base with
    | Except.ok _ => true
    | Except.error _ => false
  | ImageEntry.other => true

/-- Spec-side description of the link filter, following the spec's words:
an entry is kept exactly when its resolved URL has both a scheme and a
host. -/
def keptLink (base : Option String) : LinkEntry → Option CleanLink
  | LinkEntry.entry u t =>
    match normalize_url u base with
    | Except.ok cu =>
      match urlparse cu with
      | Except.ok p =>
        if p.scheme ≠ "" ∧ p.netloc ≠ "" then
          some ⟨cu, clean_text_str (t.getD "") (some 100)⟩
        else none
      | Except.error _ => none
    | Except.error _ => none
  | LinkEntry.other => none

/-- Spec-side description of the image filter, following the spec's
words. -/
def keptImage (base : Option String) : ImageEntry → Option CleanImage
  | ImageEntry.entry src alt title =>
    match normalize_url src base with
    | Except.ok cs =>
      match urlparse cs with
      | Except.ok p =>
        if p.scheme ≠ "" ∧ p.netloc ≠ "" then
          some ⟨cs, clean_text_str (alt.getD "") (some 100),
            clean_text_str (title.getD "") (some 100)⟩
        else none
      | Except.error _ => none
    | Except.error _ => none
  | ImageEntry.other => none

theorem is_valid_url_iff (u : String) :
    is_valid_url u = true ↔
      ∃ p, urlparse u = Except.ok p ∧ p.scheme ≠ "" ∧ p.netloc ≠ "" := by
  unfold is_valid_url
  cases hp : urlparse u with
  | ok p =>
    rw [Bool.and_eq_true, Bool.not_eq_true', Bool.not_eq_true']
    simp
  | error e => simp

theorem validateLinks_ok (base : Option String) (links : List LinkEntry)
    (h : links.all (entryResolves base) = true) :
    validateLinks base links =
      Except.ok (links.filterMap (keptLink base)) := by
  induction links with
  | nil => rfl
  | cons l rest ih =>
    rw [List.all_cons, Bool.and_eq_true] at h
    obtain ⟨hl, hrest⟩ := h
    cases l with
    | other =>
      simp only [validateLinks, List.filterMap_cons, keptLink]
      exact ih hrest
    | entry u t =>
      cases hn : normalize_url u base with
      | error e => simp [entryResolves, hn] at hl
      | ok cu =>
        simp only [validateLinks, hn, ih hrest, List.filterMap_cons]
        cases hp : urlparse cu with
        | error e =>
          have hv : is_valid_url cu = false := by
            unfold is_valid_url; rw [hp]
          simp [keptLink, hn, hp, hv]
        | ok p =>
          by_cases hcond : p.scheme ≠ "" ∧ p.netloc ≠ ""
          · have hv : is_valid_url cu = true := by
              unfold is_valid_url
              rw [hp, Bool.and_eq_true, Bool.not_eq_true', Bool.not_eq_true']
              simpa using hcond
            simp [keptLink, hn, hp, hv, hcond]
          · have hv : is_valid_url cu = false := by
              unfold is_valid_url
              rw [hp]
              rcases not_and_or.1 hcond with hc | hc
              · have hs : p.scheme = "" := not_not.1 hc
                simp [hs]
              · have hs : p.netloc = "" := not_not.1 hc
                simp [hs]
            simp [keptLink, hn, hp, hv, hcond]

theorem validateImages_ok (base : Option String) (imgs : List ImageEntry)
    (h : imgs.all (imageResolves base) = true) :
    validateImages base imgs =
      Except.ok (imgs.filterMap (keptImage base)) := by
  induction imgs with
  | nil => rfl
  | cons im rest ih =>
    rw [List.all_cons, Bool.and_eq_true] at h
    obtain ⟨hl, hrest⟩ := h
    cases im with
    | other =>
      simp only [validateImages, List.filterMap_cons, keptImage]
      exact ih hrest
    | entry src alt title =>
      cases hn : normalize_url src base with
      | error e => simp [imageResolves, hn] at hl
      | ok cs =>
        simp only [validateImages, hn, ih hrest, List.filterMap_cons]
        cases hp : urlparse cs with
        | error e =>
          have hv : is_valid_url cs = false := by
            unfold is_valid_url; rw [hp]
          simp [keptImage, hn, hp, hv]
        | ok p =>
          by_cases hcond : p.scheme ≠ "" ∧ p.netloc ≠ ""
          · have hv : is_valid_url cs = true := by
              unfold is_valid_url
              rw [hp, Bool.and_eq_true, Bool.not_eq_true', Bool.not_eq_true']
              simpa using hcond
            simp [keptImage, hn, hp, hv, hcond]
          · have hv : is_valid_url cs = false := by
              unfold is_valid_url
              rw [hp]
              rcases not_and_or.1 hcond with hc | hc
              · have hs : p.scheme = "" := not_not.1 hc
                simp [hs]
              · have hs : p.netloc = "" := not_not.1 hc
                simp [hs]
            simp [keptImage, hn, hp, hv, hcond]

set_option maxHeartbeats 2000000 in
/-- C6 (amended): when every link/image entry's URL resolves without a
parse error, normalization keeps exactly those entries whose resolved URL
has both a scheme and a host, silently dropping all others (non-dict
entries, entries without a URL, and entries whose resolved URL lacks a
scheme or host); a scheme-and-host characterization of `is_valid_url`
also covers its parse-error-to-False branch. An entry whose URL makes the
parser raise (mismatched bracket in the netloc) instead propagates a
`ValueError` out of the whole validation, so the unconditional claim
fails (see the counterexample). In particular a link list with one
absolute URL and one scheme-less fragment retains only the absolute
one. -/
theorem url_filter_spec :
    (∀ u : String, is_valid_url u = true ↔
      ∃ p, urlparse u = Except.ok p ∧ p.scheme ≠ "" ∧ p.netloc ≠ "") ∧
    (∀ (base : Option String) (links : List LinkEntry),
      links.all (entryResolves base) = true →
      validateLinks base links =
        Except.ok (links.filterMap (keptLink base))) ∧
    (∀ (base : Option String) (imgs : List ImageEntry),
      imgs.all (imageResolves base) = true →
      validateImages base imgs =
        Except.ok (imgs.filterMap (keptImage base))) ∧
    validateLinks none
      [LinkEntry.entry "https://example.com/a" none,
       LinkEntry.entry "#frag" none] =
      Except.ok [⟨"https://example.com/a", ""⟩] := by
  refine ⟨is_valid_url_iff, validateLinks_ok, validateImages_ok, ?_⟩
  rfl

set_option maxHeartbeats 2000000 in
/-- Witness for C6 (amended): the spec's example list — one absolute URL,
one scheme-less fragment — resolves entirely, and the filter keeps
exactly the absolute entry. -/
theorem url_filter_spec_witness :
    ([LinkEntry.entry "https://example.com/a" none,
      LinkEntry.entry "#frag" none].all (entryResolves none)) = true ∧
    validateLinks none
      [LinkEntry.entry "https://example.com/a" none,
       LinkEntry.entry "#frag" none] =
      Except.ok
        ([LinkEntry.entry "https://example.com/a" none,
          LinkEntry.entry "#frag" none].filterMap (keptLink none)) :=
  ⟨by decide,
   url_filter_spec.2.1 none
     [LinkEntry.entry "https://example.com/a" none,
      LinkEntry.entry "#frag" none] (by decide)⟩

set_option maxHeartbeats 2000000 in
/-- Counterexample to C6 as stated: on a link whose URL has a mismatched
bracket in its netloc (`http://[x`), `urlparse` raises
`ValueError("Invalid IPv6 URL")` out of `normalize_url` and hence out of
the whole validation — the entry is neither kept (its parsed scheme and
netloc would be non-empty) nor silently dropped: no link list is produced
at all. -/
theorem url_filter_counterexample :
    validateLinks none [LinkEntry.entry "http://[x" none] =
      Except.error "Invalid IPv6 URL" ∧
    validateLinks none [LinkEntry.entry "http://[x" none] ≠
      Except.ok [] ∧
    validateLinks none [LinkEntry.entry "http://[x" none] ≠
      Except.ok [⟨"http://[x", ""⟩] := by
  have h0 : validateLinks none [LinkEntry.entry "http://[x" none] =
      Except.error "Invalid IPv6 URL" := by rfl
  refine ⟨h0, ?_, ?_⟩
  · rw [h0]
    intro hcontra
    exact Except.noConfusion hcontra
  · rw [h0]
    intro hcontra
    exact Except.noConfusion hcontra
